import Mathlib

/-
Verification of the natural-language specification of the `bloom_filter`
repository (a Python Bloom filter, `src/bloom_filter/__init__.py`).

The operational part of the filter (the bit array, the double-hashing index
family `_hash`, `add` and `__contains__`) is embedded as executable Lean
functions over a `BloomFilter` state, parametrized by two abstract integer
hash functions `h1` and `h2`.  `h1` models Python's builtin `hash x`;
`h2` models `hash (x, "salt")`, the salted hash used by `_hash`.  Python's
`%` on ints with a positive modulus agrees with `Int.emod`.

The parameter derivation in `__init__` (which uses `math.log`, `math.ceil`
and `math.exp` on floats) is embedded over the real numbers: `mOf`, `kOf`
and `trueFprOf` are the idealized (exact-real) values of `self.m`, `self.k`
and `self.true_fpr`.

The constructor itself, including its argument validation and the order in
which the attributes are assigned, is embedded as `initObj`, which returns
either the fully constructed object or, on a `ValueError`, the partially
constructed object (fields assigned so far are `some _`, the rest `none`).
The target false-positive rate argument is modelled as a rational number
(Python floats are binary rationals; the validation only compares it with
0 and 1).
-/

namespace BloomSpec

/-- Idealized value of `self.m = math.ceil(-n * math.log(fpr) / math.log(2) ** 2)`. -/
noncomputable def mOf (n : ℤ) (fpr : ℝ) : ℤ :=
  ⌈-(n : ℝ) * Real.log fpr / (Real.log 2) ^ 2⌉

/-- Idealized value of `self.k = math.ceil((self.m / n) * math.log(2))`. -/
noncomputable def kOf (n : ℤ) (fpr : ℝ) : ℤ :=
  ⌈((mOf n fpr : ℝ) / (n : ℝ)) * Real.log 2⌉

/-- Idealized value of
`self.true_fpr = (1 - math.exp(-self.k * self.n / self.m)) ** self.k`. -/
noncomputable def trueFprOf (n : ℤ) (fpr : ℝ) : ℝ :=
  (1 - Real.exp (-(kOf n fpr : ℝ) * (n : ℝ) / (mOf n fpr : ℝ))) ^ (kOf n fpr)

/-- The object under construction: each Python attribute of `BloomFilter`
is `some _` once the corresponding assignment in `__init__` has run. -/
structure PyObj where
  n : Option ℤ
  fpr : Option ℚ
  m : Option ℤ
  k : Option ℤ
  true_fpr : Option ℝ
  bits : Option (List Bool)

/-- The object before any assignment of `__init__` has run. -/
def pyObjEmpty : PyObj :=
  { n := none, fpr := none, m := none, k := none, true_fpr := none, bits := none }

/-- `_validate_constructor_args` succeeds: `n > 0` and `0 < fpr < 1`
(the `isinstance` checks are handled by the types of the embedding). -/
def validArgs (n : ℤ) (fpr : ℚ) : Bool :=
  decide (0 < n) && (decide (0 < fpr) && decide (fpr < 1))

/-- `BloomFilter.__init__`, step by step: assign `self.n`, assign `self.fpr`,
run `_validate_constructor_args` (on failure, return the object as built so
far in `Except.error`), then assign the derived attributes `self.m`,
`self.k`, `self.true_fpr` and `self._bits = [False] * self.m`. -/
noncomputable def initObj (n : ℤ) (fpr : ℚ) : Except PyObj PyObj :=
  let s2 : PyObj := { pyObjEmpty with n := some n, fpr := some fpr }
  if validArgs n fpr then
    Except.ok { s2 with
      m := some (mOf n (fpr : ℝ)),
      k := some (kOf n (fpr : ℝ)),
      true_fpr := some (trueFprOf n (fpr : ℝ)),
      bits := some (List.replicate (mOf n (fpr : ℝ)).toNat false) }
  else
    Except.error s2

/-- Whether an `Except` is an error (a raised `ValueError`). -/
def isErr : Except ε α → Bool
  | Except.error _ => true
  | Except.ok _ => false

/-- The mutable state of a constructed filter: `self.m`, `self.k` and
`self._bits`.  (`self.n` and `self.fpr` play no role in the operations.) -/
structure BloomFilter (α : Type) where
  m : ℕ
  k : ℕ
  bits : List Bool

/-- `BloomFilter._hash(x, i)`: raises a `ValueError` when `i < 0 or i >= k`,
otherwise returns `(h1 + i * h2) % m` where `h1 = hash(x) % m` and
`h2 = hash((x, "salt")) % m`. -/
def hash (h1 h2 : α → ℤ) (s : BloomFilter α) (x : α) (i : ℤ) : Except String ℤ :=
  if i < 0 ∨ (s.k : ℤ) ≤ i then
    Except.error "hash function index out of range"
  else
    Except.ok ((h1 x % (s.m : ℤ) + i * (h2 x % (s.m : ℤ))) % (s.m : ℤ))

/-- The bit-array index touched by the `i`-th hash function (as a natural
number; it agrees with `hash` on `0 ≤ i < k`, see `claim_C10`). -/
def hashIdx (h1 h2 : α → ℤ) (s : BloomFilter α) (x : α) (i : ℕ) : ℕ :=
  ((h1 x % (s.m : ℤ) + (i : ℤ) * (h2 x % (s.m : ℤ))) % (s.m : ℤ)).toNat

/-- The list of bit-array indices accessed by `add` and `__contains__`:
`[_hash(x, 0), ..., _hash(x, k-1)]`. -/
def idxList (h1 h2 : α → ℤ) (s : BloomFilter α) (x : α) : List ℕ :=
  (List.range s.k).map (hashIdx h1 h2 s x)

/-- Set every index of `l` to `True` in the bit list (out-of-range sets are
no-ops; `claim_C10` shows the code never performs one). -/
def setTrue (bs : List Bool) (l : List ℕ) : List Bool :=
  l.foldl (fun acc j => acc.set j true) bs

/-- `BloomFilter.add(x)`: `for hash_i in range(self.k): self._bits[self._hash(x, hash_i)] = True`. -/
def add (h1 h2 : α → ℤ) (s : BloomFilter α) (x : α) : BloomFilter α :=
  { s with bits := setTrue s.bits (idxList h1 h2 s x) }

/-- `BloomFilter.__contains__(x)`:
`all(self._bits[self._hash(x, hash_i)] for hash_i in range(self.k))`.
(Reads are modelled with `getD _ false`; in-bounds access is `claim_C10`.) -/
def contains (h1 h2 : α → ℤ) (s : BloomFilter α) (x : α) : Bool :=
  (idxList h1 h2 s x).all fun j => s.bits.getD j false

-- ------------------------------------------------------------------
-- Helper lemmas about the bit list
-- ------------------------------------------------------------------

theorem length_set_true (bs : List Bool) (l : List ℕ) :
    (setTrue bs l).length = bs.length := by
  induction l generalizing bs with
  | nil => rfl
  | cons j t ih =>
      simp only [setTrue, List.foldl_cons] at *
      rw [ih]
      exact List.length_set bs j true

theorem getD_set_of_ne (bs : List Bool) (i j : ℕ) (b : Bool) (h : i ≠ j) :
    (bs.set i b).getD j false = bs.getD j false := by
  induction bs generalizing i j with
  | nil => rfl
  | cons a t ih =>
      cases i with
      | zero =>
          cases j with
          | zero => exact absurd rfl h
          | succ j => rfl
      | succ i =>
          cases j with
          | zero => rfl
          | succ j =>
              simp only [List.set, List.getD_cons_succ]
              exact ih i j (fun hc => h (by rw [hc]))

theorem getD_set_self (bs : List Bool) (j : ℕ) (b : Bool) (h : j < bs.length) :
    (bs.set j b).getD j false = b := by
  induction bs generalizing j with
  | nil => exact absurd h (by simp)
  | cons a t ih =>
      cases j with
      | zero => rfl
      | succ j =>
          simp only [List.set, List.getD_cons_succ]
          exact ih j (by simpa using h)

theorem set_true_of_getD (bs : List Bool) (j : ℕ) (h : bs.getD j false = true) :
    bs.set j true = bs := by
  induction bs generalizing j with
  | nil => rfl
  | cons a t ih =>
      cases j with
      | zero => simp_all
      | succ j =>
          simp only [List.getD_cons_succ] at h
          simp [List.set, ih j h]

theorem getD_set_true_mono (bs : List Bool) (i j : ℕ)
    (h : bs.getD j false = true) : (bs.set i true).getD j false = true := by
  by_cases hij : i = j
  · subst hij
    have hlt : i < bs.length := by
      by_contra hge
      rw [List.getD_eq_default _ _ (Nat.le_of_not_lt hge)] at h
      exact Bool.false_ne_true h
    exact getD_set_self bs i true hlt
  · rw [getD_set_of_ne bs i j true hij]
    exact h

theorem setTrue_mono (bs : List Bool) (l : List ℕ) (j : ℕ)
    (h : bs.getD j false = true) : (setTrue bs l).getD j false = true := by
  induction l generalizing bs with
  | nil => exact h
  | cons i t ih =>
      simp only [setTrue, List.foldl_cons]
      exact ih (bs.set i true) (getD_set_true_mono bs i j h)

theorem setTrue_getD_of_mem (bs : List Bool) (l : List ℕ) (j : ℕ)
    (hj : j ∈ l) (hlen : j < bs.length) :
    (setTrue bs l).getD j false = true := by
  induction l generalizing bs with
  | nil => exact absurd hj (List.not_mem_nil j)
  | cons i t ih =>
      simp only [setTrue, List.foldl_cons]
      rcases List.mem_cons.mp hj with h | h
      · subst h
        exact setTrue_mono (bs.set j true) t j (getD_set_self bs j true hlen)
      · exact ih (bs.set i true) h (by rw [List.length_set]; exact hlen)

theorem setTrue_eq_self (bs : List Bool) (l : List ℕ)
    (h : ∀ j ∈ l, j < bs.length → bs.getD j false = true) :
    setTrue bs l = bs := by
  induction l generalizing bs with
  | nil => rfl
  | cons i t ih =>
      simp only [setTrue, List.foldl_cons]
      have hset : bs.set i true = bs := by
        by_cases hi : i < bs.length
        · exact set_true_of_getD bs i (h i (List.mem_cons_self i t) hi)
        · exact List.set_eq_of_length_le (Nat.le_of_not_lt hi)
      rw [hset]
      exact ih bs (fun j hj => h j (List.mem_cons_of_mem i hj))

theorem setTrue_idem (bs : List Bool) (l : List ℕ) :
    setTrue (setTrue bs l) l = setTrue bs l := by
  apply setTrue_eq_self
  intro j hj hlt
  exact setTrue_getD_of_mem bs l j hj (by rw [length_set_true] at hlt; exact hlt)

theorem hashIdx_lt (h1 h2 : α → ℤ) (s : BloomFilter α) (x : α) (i : ℕ)
    (hm : 0 < s.m) : hashIdx h1 h2 s x i < s.m := by
  have hne : (s.m : ℤ) ≠ 0 := by exact_mod_cast hm.ne'
  have h0 : 0 ≤ (h1 x % (s.m : ℤ) + (i : ℤ) * (h2 x % (s.m : ℤ))) % (s.m : ℤ) :=
    Int.emod_nonneg _ hne
  have hlt : (h1 x % (s.m : ℤ) + (i : ℤ) * (h2 x % (s.m : ℤ))) % (s.m : ℤ) < (s.m : ℤ) :=
    Int.emod_lt_of_pos _ (by exact_mod_cast hm)
  unfold hashIdx
  omega

theorem add_m (h1 h2 : α → ℤ) (s : BloomFilter α) (x : α) :
    (add h1 h2 s x).m = s.m := rfl

theorem add_k (h1 h2 : α → ℤ) (s : BloomFilter α) (x : α) :
    (add h1 h2 s x).k = s.k := rfl

theorem idxList_add (h1 h2 : α → ℤ) (s : BloomFilter α) (x y : α) :
    idxList h1 h2 (add h1 h2 s y) x = idxList h1 h2 s x := rfl

-- ------------------------------------------------------------------
-- Claims C1, C6, C7, C8 (operational properties of add / contains)
-- ------------------------------------------------------------------

/-- Claim C1: no false negatives.  For every filter state whose bit list has
the declared length `m > 0` (as holds for every state reachable from
construction), immediately after `add x` the membership test `x in filter`
returns `True`. -/
theorem claim_C1 (h1 h2 : α → ℤ) (s : BloomFilter α) (x : α)
    (hlen : s.bits.length = s.m) (hm : 0 < s.m) :
    contains h1 h2 (add h1 h2 s x) x = true := by
  unfold contains
  rw [idxList_add]
  rw [List.all_eq_true]
  intro j hj
  have hlt : j < s.bits.length := by
    rcases List.mem_map.mp hj with ⟨i, _, hix⟩
    rw [hlen]
    rw [← hix]
    exact hashIdx_lt h1 h2 s x i hm
  exact setTrue_getD_of_mem s.bits (idxList h1 h2 s x) j hj hlt

/-- Witness for C1 at a concrete filter: m = 3, k = 2, hash functions
`v ↦ v` and `v ↦ v + 1`, element 7. -/
theorem claim_C1_witness :
    (BloomFilter.mk 3 2 [false, false, false] : BloomFilter ℕ).bits.length =
      (BloomFilter.mk 3 2 [false, false, false] : BloomFilter ℕ).m ∧
    0 < (BloomFilter.mk 3 2 [false, false, false] : BloomFilter ℕ).m ∧
    contains (fun v => (v : ℤ)) (fun v => (v : ℤ) + 1)
      (add (fun v => (v : ℤ)) (fun v => (v : ℤ) + 1)
        (BloomFilter.mk 3 2 [false, false, false]) 7) 7 = true :=
  ⟨by decide, by decide,
    claim_C1 (fun v => (v : ℤ)) (fun v => (v : ℤ) + 1)
      (BloomFilter.mk 3 2 [false, false, false]) 7 (by decide) (by decide)⟩

/-- Claim C6: idempotence of insertion.  For every element and every filter
state, `add x` twice yields exactly the same state (in particular the same
bit array) as `add x` once. -/
theorem claim_C6 (h1 h2 : α → ℤ) (s : BloomFilter α) (x : α) :
    add h1 h2 (add h1 h2 s x) x = add h1 h2 s x := by
  show BloomFilter.mk s.m s.k (setTrue (setTrue s.bits (idxList h1 h2 s x)) (idxList h1 h2 s x)) =
    BloomFilter.mk s.m s.k (setTrue s.bits (idxList h1 h2 s x))
  rw [setTrue_idem]

/-- One step of Claim C7: membership is preserved by a single later insert. -/
theorem contains_add_mono (h1 h2 : α → ℤ) (s : BloomFilter α) (x y : α)
    (hx : contains h1 h2 s x = true) :
    contains h1 h2 (add h1 h2 s y) x = true := by
  unfold contains at *
  rw [idxList_add]
  rw [List.all_eq_true] at hx ⊢
  intro j hj
  exact setTrue_mono s.bits (idxList h1 h2 s y) j (hx j hj)

/-- Claim C7: monotonicity of membership.  If `x in filter` is true, it
stays true after any further sequence of `add` calls. -/
theorem claim_C7 (h1 h2 : α → ℤ) (s : BloomFilter α) (x : α) (ys : List α)
    (hx : contains h1 h2 s x = true) :
    contains h1 h2 (ys.foldl (add h1 h2) s) x = true := by
  induction ys generalizing s with
  | nil => exact hx
  | cons y t ih =>
      simp only [List.foldl_cons]
      exact ih (add h1 h2 s y) (contains_add_mono h1 h2 s x y hx)

/-- Witness for C7 at a concrete filter and insertion sequence. -/
theorem claim_C7_witness :
    contains (fun _ => (0 : ℤ)) (fun _ => (0 : ℤ))
      (BloomFilter.mk 1 1 [true] : BloomFilter ℕ) 0 = true ∧
    contains (fun _ => (0 : ℤ)) (fun _ => (0 : ℤ))
      (List.foldl (add (fun _ => (0 : ℤ)) (fun _ => (0 : ℤ)))
        (BloomFilter.mk 1 1 [true]) [5, 9]) 0 = true :=
  ⟨by decide,
    claim_C7 (fun _ => (0 : ℤ)) (fun _ => (0 : ℤ))
      (BloomFilter.mk 1 1 [true]) 0 [5, 9] (by decide)⟩

/-- Claim C8: bit-array monotonicity.  `add` never clears a set bit: any
position reading `True` before an insertion still reads `True` after it
(and `__contains__`, embedded as the pure function `contains`, does not
modify the state at all). -/
theorem claim_C8 (h1 h2 : α → ℤ) (s : BloomFilter α) (y : α) (j : ℕ)
    (hj : s.bits.getD j false = true) :
    (add h1 h2 s y).bits.getD j false = true :=
  setTrue_mono s.bits (idxList h1 h2 s y) j hj

/-- Witness for C8 at a concrete filter: bit 0 is set, stays set. -/
theorem claim_C8_witness :
    (BloomFilter.mk 2 1 [true, false] : BloomFilter ℕ).bits.getD 0 false = true ∧
    (add (fun _ => (1 : ℤ)) (fun _ => (1 : ℤ))
      (BloomFilter.mk 2 1 [true, false] : BloomFilter ℕ) 4).bits.getD 0 false = true :=
  ⟨by decide,
    claim_C8 (fun _ => (1 : ℤ)) (fun _ => (1 : ℤ))
      (BloomFilter.mk 2 1 [true, false]) 4 0 (by decide)⟩

-- ------------------------------------------------------------------
-- Claims C3, C10 (hash-function contract and in-bounds access)
-- ------------------------------------------------------------------

/-- Claim C3: hash-function contract.  `_hash(x, i)` raises an out-of-range
`ValueError` exactly when `i < 0` or `i ≥ k`, and returns
`(h1 + i * h2) mod m` (with `h1 = hash(x) mod m`, `h2 = hash((x, salt)) mod m`)
exactly when `0 ≤ i < k`. -/
theorem claim_C3 (h1 h2 : α → ℤ) (s : BloomFilter α) (x : α) (i : ℤ) :
    (isErr (hash h1 h2 s x i) = true ↔ (i < 0 ∨ (s.k : ℤ) ≤ i)) ∧
    (hash h1 h2 s x i =
        Except.ok ((h1 x % (s.m : ℤ) + i * (h2 x % (s.m : ℤ))) % (s.m : ℤ)) ↔
      (0 ≤ i ∧ i < (s.k : ℤ))) := by
  unfold hash
  by_cases h : i < 0 ∨ (s.k : ℤ) ≤ i
  · rw [if_pos h]
    constructor
    · simp [isErr, h]
    · constructor
      · intro hok
        exact absurd hok (by simp)
      · intro hin
        rcases h with h | h
        · exact absurd hin.1 (not_le.mpr h)
        · exact absurd hin.2 (not_lt.mpr h)
  · rw [if_neg h]
    push_neg at h
    constructor
    · simp [isErr, not_or, h.1.not_lt, h.2.not_le]
    · simp [h]

/-- Claim C10: in-bounds bit access.  For a filter with `m > 0` and any hash
index `i < k`, `_hash` succeeds and its value is the index `hashIdx` in
`[0, m)`; hence every bit-array access performed by `add` and by
`__contains__` (they access exactly the indices `hashIdx x i`, `i < k`)
is within bounds. -/
theorem claim_C10 (h1 h2 : α → ℤ) (s : BloomFilter α) (x : α) (i : ℕ)
    (hm : 0 < s.m) (hik : i < s.k) :
    hash h1 h2 s x (i : ℤ) = Except.ok ((hashIdx h1 h2 s x i : ℕ) : ℤ) ∧
    hashIdx h1 h2 s x i < s.m := by
  have hne : (s.m : ℤ) ≠ 0 := by exact_mod_cast hm.ne'
  have h0 : 0 ≤ (h1 x % (s.m : ℤ) + (i : ℤ) * (h2 x % (s.m : ℤ))) % (s.m : ℤ) :=
    Int.emod_nonneg _ hne
  constructor
  · unfold hash
    rw [if_neg]
    · rw [hashIdx, Int.toNat_of_nonneg h0]
    · push_neg
      constructor
      · exact Int.ofNat_nonneg i
      · exact_mod_cast hik
  · exact hashIdx_lt h1 h2 s x i hm

/-- Witness for C10 at a concrete filter (with a negative raw hash value,
as Python's `hash` can return): m = 5, k = 3, i = 2. -/
theorem claim_C10_witness :
    0 < (BloomFilter.mk 5 3 [] : BloomFilter ℕ).m ∧
    2 < (BloomFilter.mk 5 3 [] : BloomFilter ℕ).k ∧
    (hash (fun _ => (-7 : ℤ)) (fun _ => (4 : ℤ)) (BloomFilter.mk 5 3 [] : BloomFilter ℕ) 0
        ((2 : ℕ) : ℤ) =
      Except.ok ((hashIdx (fun _ => (-7 : ℤ)) (fun _ => (4 : ℤ)) (BloomFilter.mk 5 3 []) 0 2 : ℕ) : ℤ) ∧
    hashIdx (fun _ => (-7 : ℤ)) (fun _ => (4 : ℤ)) (BloomFilter.mk 5 3 []) 0 2 < 5) :=
  ⟨by decide, by decide,
    claim_C10 (fun _ => (-7 : ℤ)) (fun _ => (4 : ℤ)) (BloomFilter.mk 5 3 []) 0 2
      (by decide) (by decide)⟩

-- ------------------------------------------------------------------
-- Claims C9, C5 (constructor validation and atomicity)
-- ------------------------------------------------------------------

/-- Claim C9: constructor raises-iff.  Construction fails with a
`ValueError` exactly when `n ≤ 0` or `fpr ≤ 0` or `fpr ≥ 1` (the
non-integer / non-float cases are handled by the types of the embedding);
for all other arguments construction succeeds. -/
theorem claim_C9 (n : ℤ) (fpr : ℚ) :
    isErr (initObj n fpr) = true ↔ (n ≤ 0 ∨ fpr ≤ 0 ∨ 1 ≤ fpr) := by
  unfold initObj
  by_cases h : validArgs n fpr
  · rw [if_pos h]
    unfold validArgs at h
    simp only [Bool.and_eq_true, decide_eq_true_eq] at h
    constructor
    · intro hc
      exact absurd hc (by simp [isErr])
    · intro hc
      rcases hc with hc | hc | hc
      · exact absurd h.1 (not_lt.mpr hc)
      · exact absurd h.2.1 (not_lt.mpr hc)
      · exact absurd h.2.2 (not_lt.mpr hc)
  · rw [if_neg h]
    unfold validArgs at h
    simp only [Bool.and_eq_true, decide_eq_true_eq, not_and_or] at h
    constructor
    · intro _
      rcases h with h | h | h
      · exact Or.inl (not_lt.mp h)
      · exact Or.inr (Or.inl (not_lt.mp h))
      · exact Or.inr (Or.inr (not_lt.mp h))
    · intro _
      rfl

/-- Counterexample to Claim C5 as stated: constructing with `n = 0` fails,
but the partially constructed object at the point of failure already has
the fields `n` (capacity) and `fpr` (target_fpr) assigned — the code runs
`self.n = n` and `self.fpr = fpr` before `_validate_constructor_args()`,
so it is not the case that no field has been set. -/
theorem claim_C5_cex :
    initObj 0 (1/100) =
      Except.error
        { n := some 0, fpr := some (1/100), m := none, k := none,
          true_fpr := none, bits := none } ∧
    ({ n := some 0, fpr := some (1/100), m := none, k := none,
       true_fpr := none, bits := none } : PyObj).n ≠ pyObjEmpty.n := by
  constructor
  · rfl
  · simp [pyObjEmpty]

/-- Claim C5, amended: validation runs after the argument fields `n` and
`fpr` are assigned but before any derived field is computed; when
construction fails, the object has exactly `n` and `fpr` set and
`m`, `k`, `true_fpr` and `bits` unset. -/
theorem claim_C5 (n : ℤ) (fpr : ℚ) (s : PyObj)
    (h : initObj n fpr = Except.error s) :
    s.n = some n ∧ s.fpr = some fpr ∧ s.m = none ∧ s.k = none ∧
    s.true_fpr = none ∧ s.bits = none := by
  unfold initObj at h
  by_cases hv : validArgs n fpr
  · rw [if_pos hv] at h
    exact absurd h (by simp)
  · rw [if_neg hv] at h
    have hs : ({ pyObjEmpty with n := some n, fpr := some fpr } : PyObj) = s :=
      Except.error.inj h
    rw [← hs]
    exact ⟨rfl, rfl, rfl, rfl, rfl, rfl⟩

/-- Witness for the amended C5: a failing construction (`fpr = 5 ≥ 1`)
whose error object has `n`, `fpr` set and the derived fields unset. -/
theorem claim_C5_witness :
    (PyObj.mk (some 3) (some 5) none none none none).n = some 3 ∧
    (PyObj.mk (some 3) (some 5) none none none none).fpr = some 5 ∧
    (PyObj.mk (some 3) (some 5) none none none none).m = none ∧
    (PyObj.mk (some 3) (some 5) none none none none).k = none ∧
    (PyObj.mk (some 3) (some 5) none none none none).true_fpr = none ∧
    (PyObj.mk (some 3) (some 5) none none none none).bits = none :=
  claim_C5 3 5 (PyObj.mk (some 3) (some 5) none none none none) rfl

-- ------------------------------------------------------------------
-- Numeric bounds on logarithms (for the parameter-derivation claims)
-- ------------------------------------------------------------------

theorem log_ten_gt : (485/146 : ℝ) * Real.log 2 < Real.log 10 := by
  have h : ((2:ℝ) ^ (485:ℕ)) < ((10:ℝ) ^ (146:ℕ)) := by norm_num
  have h2 := Real.log_lt_log (by positivity) h
  rw [Real.log_pow, Real.log_pow] at h2
  push_cast at h2
  linarith

theorem log_ten_lt : Real.log 10 < (2136/643 : ℝ) * Real.log 2 := by
  have h : ((10:ℝ) ^ (643:ℕ)) < ((2:ℝ) ^ (2136:ℕ)) := by norm_num
  have h2 := Real.log_lt_log (by positivity) h
  rw [Real.log_pow, Real.log_pow] at h2
  push_cast at h2
  linarith

theorem log_hundred : Real.log (100 : ℝ) = 2 * Real.log 10 := by
  rw [show (100:ℝ) = 10 ^ (2:ℕ) by norm_num, Real.log_pow]
  push_cast
  ring

theorem log_thousand : Real.log (1000 : ℝ) = 3 * Real.log 10 := by
  rw [show (1000:ℝ) = 10 ^ (3:ℕ) by norm_num, Real.log_pow]
  push_cast
  ring

-- ------------------------------------------------------------------
-- Claim C2 (parameter-derivation regression table)
-- ------------------------------------------------------------------

theorem mOf_100 : mOf 100 (1/100) = 959 := by
  have hL1 : (0.6931471803 : ℝ) < Real.log 2 := Real.log_two_gt_d9
  have hL2 : Real.log 2 < 0.6931471808 := Real.log_two_lt_d9
  have hL0 : (0:ℝ) < Real.log 2 := by linarith
  have hT1 := log_ten_gt
  have hT2 := log_ten_lt
  unfold mOf
  rw [one_div, Real.log_inv, log_hundred]
  rw [show -(((100:ℤ)):ℝ) * -(2 * Real.log 10) / (Real.log 2)^2
        = 200 * Real.log 10 / (Real.log 2)^2 by push_cast; ring]
  rw [Int.ceil_eq_iff]
  constructor
  · rw [lt_div_iff₀ (by positivity)]
    have key : (958:ℝ) * Real.log 2 < 200 * (485/146) := by nlinarith
    push_cast
    nlinarith
  · rw [div_le_iff₀ (by positivity)]
    have key : (200:ℝ) * (2136/643) ≤ 959 * Real.log 2 := by nlinarith
    push_cast
    nlinarith

theorem kOf_100 : kOf 100 (1/100) = 7 := by
  have hL1 : (0.6931471803 : ℝ) < Real.log 2 := Real.log_two_gt_d9
  have hL2 : Real.log 2 < 0.6931471808 := Real.log_two_lt_d9
  unfold kOf
  rw [mOf_100]
  rw [Int.ceil_eq_iff]
  push_cast
  constructor
  · linarith
  · linarith

theorem mOf_1000 : mOf 1000 (1/100) = 9586 := by
  have hL1 : (0.6931471803 : ℝ) < Real.log 2 := Real.log_two_gt_d9
  have hL2 : Real.log 2 < 0.6931471808 := Real.log_two_lt_d9
  have hL0 : (0:ℝ) < Real.log 2 := by linarith
  have hT1 := log_ten_gt
  have hT2 := log_ten_lt
  unfold mOf
  rw [one_div, Real.log_inv, log_hundred]
  rw [show -(((1000:ℤ)):ℝ) * -(2 * Real.log 10) / (Real.log 2)^2
        = 2000 * Real.log 10 / (Real.log 2)^2 by push_cast; ring]
  rw [Int.ceil_eq_iff]
  constructor
  · rw [lt_div_iff₀ (by positivity)]
    have key : (9585:ℝ) * Real.log 2 < 2000 * (485/146) := by nlinarith
    push_cast
    nlinarith
  · rw [div_le_iff₀ (by positivity)]
    have key : (2000:ℝ) * (2136/643) ≤ 9586 * Real.log 2 := by nlinarith
    push_cast
    nlinarith

theorem kOf_1000 : kOf 1000 (1/100) = 7 := by
  have hL1 : (0.6931471803 : ℝ) < Real.log 2 := Real.log_two_gt_d9
  have hL2 : Real.log 2 < 0.6931471808 := Real.log_two_lt_d9
  unfold kOf
  rw [mOf_1000]
  rw [Int.ceil_eq_iff]
  push_cast
  constructor
  · linarith
  · linarith

theorem mOf_10000 : mOf 10000 (1/1000) = 143776 := by
  have hL1 : (0.6931471803 : ℝ) < Real.log 2 := Real.log_two_gt_d9
  have hL2 : Real.log 2 < 0.6931471808 := Real.log_two_lt_d9
  have hL0 : (0:ℝ) < Real.log 2 := by linarith
  have hT1 := log_ten_gt
  have hT2 := log_ten_lt
  unfold mOf
  rw [one_div, Real.log_inv, log_thousand]
  rw [show -(((10000:ℤ)):ℝ) * -(3 * Real.log 10) / (Real.log 2)^2
        = 30000 * Real.log 10 / (Real.log 2)^2 by push_cast; ring]
  rw [Int.ceil_eq_iff]
  constructor
  · rw [lt_div_iff₀ (by positivity)]
    have key : (143775:ℝ) * Real.log 2 < 30000 * (485/146) := by nlinarith
    push_cast
    nlinarith
  · rw [div_le_iff₀ (by positivity)]
    have key : (30000:ℝ) * (2136/643) ≤ 143776 * Real.log 2 := by nlinarith
    push_cast
    nlinarith

theorem kOf_10000 : kOf 10000 (1/1000) = 10 := by
  have hL1 : (0.6931471803 : ℝ) < Real.log 2 := Real.log_two_gt_d9
  have hL2 : Real.log 2 < 0.6931471808 := Real.log_two_lt_d9
  unfold kOf
  rw [mOf_10000]
  rw [Int.ceil_eq_iff]
  push_cast
  constructor
  · linarith
  · linarith

theorem mOf_10_half : mOf 10 (1/2) = 15 := by
  have hL1 : (0.6931471803 : ℝ) < Real.log 2 := Real.log_two_gt_d9
  have hL2 : Real.log 2 < 0.6931471808 := Real.log_two_lt_d9
  have hL0 : (0:ℝ) < Real.log 2 := by linarith
  unfold mOf
  rw [one_div, Real.log_inv]
  rw [show -(((10:ℤ)):ℝ) * -Real.log 2 / (Real.log 2)^2
        = 10 * Real.log 2 / (Real.log 2)^2 by push_cast; ring]
  rw [Int.ceil_eq_iff]
  constructor
  · rw [lt_div_iff₀ (by positivity)]
    push_cast
    nlinarith
  · rw [div_le_iff₀ (by positivity)]
    push_cast
    nlinarith

theorem kOf_10_half : kOf 10 (1/2) = 2 := by
  have hL1 : (0.6931471803 : ℝ) < Real.log 2 := Real.log_two_gt_d9
  have hL2 : Real.log 2 < 0.6931471808 := Real.log_two_lt_d9
  unfold kOf
  rw [mOf_10_half]
  rw [Int.ceil_eq_iff]
  push_cast
  constructor
  · linarith
  · linarith

/-- Claim C2: parameter-derivation exactness.  The construction formulas
`m = ceil(-n ln fpr / (ln 2)^2)` and `k = ceil((m/n) ln 2)` give exactly
`(959, 7)`, `(9586, 7)`, `(143776, 10)` and `(15, 2)` on the four inputs
`(100, 0.01)`, `(1000, 0.01)`, `(10000, 0.001)` and `(10, 0.5)`. -/
theorem claim_C2 :
    mOf 100 (1/100) = 959 ∧ kOf 100 (1/100) = 7 ∧
    mOf 1000 (1/100) = 9586 ∧ kOf 1000 (1/100) = 7 ∧
    mOf 10000 (1/1000) = 143776 ∧ kOf 10000 (1/1000) = 10 ∧
    mOf 10 (1/2) = 15 ∧ kOf 10 (1/2) = 2 :=
  ⟨mOf_100, kOf_100, mOf_1000, kOf_1000, mOf_10000, kOf_10000, mOf_10_half, kOf_10_half⟩

-- ------------------------------------------------------------------
-- Claim C4 (true_fpr versus target_fpr)
-- ------------------------------------------------------------------

theorem log_26_25_ub : Real.log ((26:ℝ)/25) ≤ 1/25 := by
  have h := Real.log_le_sub_one_of_pos (show (0:ℝ) < 26/25 by norm_num)
  linarith

theorem log_26_25_lb : (1/26 : ℝ) ≤ Real.log ((26:ℝ)/25) := by
  have h := Real.log_le_sub_one_of_pos (show (0:ℝ) < 25/26 by norm_num)
  have h2 : Real.log ((25:ℝ)/26) = - Real.log ((26:ℝ)/25) := by
    rw [show (25:ℝ)/26 = ((26:ℝ)/25)⁻¹ by norm_num, Real.log_inv]
  rw [h2] at h
  linarith

theorem mOf_10_13 : mOf 10 (13/100) = 43 := by
  have hL1 : (0.6931471803 : ℝ) < Real.log 2 := Real.log_two_gt_d9
  have hL2 : Real.log 2 < 0.6931471808 := Real.log_two_lt_d9
  have hL0 : (0:ℝ) < Real.log 2 := by linarith
  have hc1 := log_26_25_ub
  have hc2 := log_26_25_lb
  have hlog : Real.log ((13:ℝ)/100) = Real.log ((26:ℝ)/25) - 3 * Real.log 2 := by
    rw [show (13:ℝ)/100 = ((26:ℝ)/25) / 2^(3:ℕ) by norm_num,
      Real.log_div (by norm_num) (by norm_num), Real.log_pow]
    push_cast
    ring
  unfold mOf
  rw [hlog]
  rw [show -(((10:ℤ)):ℝ) * (Real.log ((26:ℝ)/25) - 3 * Real.log 2) / (Real.log 2)^2
        = (30 * Real.log 2 - 10 * Real.log ((26:ℝ)/25)) / (Real.log 2)^2 by push_cast; ring]
  rw [Int.ceil_eq_iff]
  constructor
  · rw [lt_div_iff₀ (by positivity)]
    push_cast
    nlinarith [mul_nonneg (sub_nonneg.mpr hL2.le) (sub_nonneg.mpr hL1.le)]
  · rw [div_le_iff₀ (by positivity)]
    push_cast
    nlinarith [sq_nonneg (Real.log 2 - 0.6931471803)]

theorem kOf_10_13 : kOf 10 (13/100) = 3 := by
  have hL1 : (0.6931471803 : ℝ) < Real.log 2 := Real.log_two_gt_d9
  have hL2 : Real.log 2 < 0.6931471808 := Real.log_two_lt_d9
  unfold kOf
  rw [mOf_10_13]
  rw [Int.ceil_eq_iff]
  push_cast
  constructor
  · linarith
  · linarith

/-- Counterexample to Claim C4 as stated: at the valid construction input
`n = 10`, `fpr = 0.13` the derived parameters are `m = 43`, `k = 3` and
`true_fpr = (1 - e^(-30/43))^3 ≈ 0.1267 < 0.13 = target_fpr`, so the
exposed `true_fpr` is NOT always ≥ `target_fpr`. -/
theorem claim_C4_cex :
    (0 : ℤ) < 10 ∧ (0:ℝ) < 13/100 ∧ (13/100 : ℝ) < 1 ∧
    trueFprOf 10 (13/100) < 13/100 := by
  refine ⟨by norm_num, by norm_num, by norm_num, ?_⟩
  have hL1 : (0.6931471803 : ℝ) < Real.log 2 := Real.log_two_gt_d9
  unfold trueFprOf
  rw [mOf_10_13, kOf_10_13]
  rw [show -(((3:ℤ)):ℝ) * ((10:ℤ):ℝ) / ((43:ℤ):ℝ) = -(30/43) by push_cast; ring]
  have hE_lb : (1 + Real.log 2 - 30/43)/2 ≤ Real.exp (-(30/43)) := by
    rw [show (-(30/43) : ℝ) = (Real.log 2 - 30/43) + (- Real.log 2) by ring,
      Real.exp_add, Real.exp_neg, Real.exp_log (show (0:ℝ) < 2 by norm_num)]
    have h1 : (Real.log 2 - 30/43) + 1 ≤ Real.exp (Real.log 2 - 30/43) :=
      Real.add_one_le_exp _
    linarith
  have hE_ub : Real.exp (-(30/43 : ℝ)) ≤ 1 := by
    rw [show (1:ℝ) = Real.exp 0 from Real.exp_zero.symm]
    exact Real.exp_le_exp.mpr (by norm_num)
  have hp0 : (0:ℝ) ≤ 1 - Real.exp (-(30/43 : ℝ)) := by linarith
  have hpB : 1 - Real.exp (-(30/43 : ℝ)) ≤ (1 - 0.6931471803 + 30/43)/2 := by
    linarith
  rw [show ((3:ℤ)) = ((3:ℕ):ℤ) from rfl, zpow_natCast]
  calc (1 - Real.exp (-(30/43 : ℝ))) ^ (3:ℕ)
      ≤ ((1 - 0.6931471803 + 30/43)/2) ^ (3:ℕ) := pow_le_pow_left₀ hp0 hpB 3
    _ < 13/100 := by norm_num

/-- Claim C4, amended: for every valid construction input (`n > 0`,
`0 < fpr < 1`) the exposed `true_fpr` computed from the integer-rounded
`m` and `k` is strictly between 0 and 1; it is NOT always ≥ `target_fpr`
(see the counterexample at `n = 10`, `fpr = 0.13`). -/
theorem claim_C4 (n : ℤ) (fpr : ℝ) (hn : 0 < n) (h0 : 0 < fpr) (h1 : fpr < 1) :
    0 < trueFprOf n fpr ∧ trueFprOf n fpr < 1 := by
  have hlogf : Real.log fpr < 0 := Real.log_neg h0 h1
  have hn' : (0:ℝ) < (n:ℝ) := by exact_mod_cast hn
  have hL0 : (0:ℝ) < Real.log 2 := Real.log_pos (by norm_num)
  have hm : 0 < mOf n fpr := by
    apply Int.ceil_pos.mpr
    have hnum : 0 < -(n:ℝ) * Real.log fpr := by nlinarith
    exact div_pos hnum (by positivity)
  have hk : 0 < kOf n fpr := by
    apply Int.ceil_pos.mpr
    have hmr : (0:ℝ) < (mOf n fpr : ℝ) := by exact_mod_cast hm
    positivity
  have hmr : (0:ℝ) < (mOf n fpr : ℝ) := by exact_mod_cast hm
  have hkr : (0:ℝ) < (kOf n fpr : ℝ) := by exact_mod_cast hk
  have hE1 : Real.exp (-(kOf n fpr : ℝ) * (n : ℝ) / (mOf n fpr : ℝ)) < 1 := by
    rw [show (1:ℝ) = Real.exp 0 from Real.exp_zero.symm]
    apply Real.exp_lt_exp.mpr
    have hpos : (0:ℝ) < (kOf n fpr : ℝ) * (n : ℝ) / (mOf n fpr : ℝ) := by positivity
    have heq : -(kOf n fpr : ℝ) * (n : ℝ) / (mOf n fpr : ℝ) =
        -((kOf n fpr : ℝ) * (n : ℝ) / (mOf n fpr : ℝ)) := by ring
    rw [heq]
    linarith
  have hE0 : (0:ℝ) < Real.exp (-(kOf n fpr : ℝ) * (n : ℝ) / (mOf n fpr : ℝ)) :=
    Real.exp_pos _
  unfold trueFprOf
  constructor
  · exact zpow_pos (by linarith) _
  · exact zpow_lt_one₀ (by linarith) (by linarith) hk

/-- Witness for the amended C4 at the valid input `n = 5`, `fpr = 1/2`. -/
theorem claim_C4_witness :
    0 < trueFprOf 5 (1/2) ∧ trueFprOf 5 (1/2) < 1 :=
  claim_C4 5 (1/2) (by norm_num) (by norm_num) (by norm_num)

end BloomSpec
